import Mathlib

/-!
Verification of the assessment engine in `thapbi_pict/assess.py`.

The Python module is embedded shallowly: tallies (Python dicts from pairs of
label-combination strings to counts) become association lists, the
`collections.Counter` keyed by boolean pairs becomes a four-field structure,
and Python's `str.split(";")` becomes a structurally recursive function over
the character data of a `String`.  Fatal `sys.exit` calls become
`Except.error` results.
-/

namespace Assess

/-- Python's `s.split(sep)` for a single-character separator, as used by
`assess.py` via `expt.split(";")` etc.  Mirrors Python semantics:
`"".split(";") == [""]` and separators at the ends produce empty chunks. -/
def pySplitAux (sep : Char) : List Char → List Char → List String
  | [], acc => [String.mk acc.reverse]
  | c :: cs, acc =>
    if c = sep then String.mk acc.reverse :: pySplitAux sep cs []
    else pySplitAux sep cs (c :: acc)

/-- Python `s.split(sep)` (single-character separator). -/
def pySplit (sep : Char) (s : String) : List String := pySplitAux sep s.data []

/-- A tally: the Python dict mapping `(expected-combination,
predicted-combination)` pairs of strings to sample counts, embedded as an
association list. -/
abbrev Tally := List ((String × String) × Nat)

/-- Python `sum(tally.values())`. -/
def tallyTotal (tally : Tally) : Nat := (tally.map (·.2)).sum

/-- The `Counter` keyed by `(bool, bool)` used in `extract_binary_tally` and
`extract_global_tally`: field `tt` is the `[True, True]` cell (TP), `ft` is
`[False, True]` (FP), `tf` is `[True, False]` (FN), `ff` is `[False, False]`
(TN). -/
structure BoolCounter where
  tt : Nat := 0
  ft : Nat := 0
  tf : Nat := 0
  ff : Nat := 0
deriving DecidableEq, Repr

/-- `x[e, p] += c` on the boolean-pair `Counter`. -/
def bump (x : BoolCounter) (e p : Bool) (c : Nat) : BoolCounter :=
  match e, p with
  | true, true => { x with tt := x.tt + c }
  | false, true => { x with ft := x.ft + c }
  | true, false => { x with tf := x.tf + c }
  | false, false => { x with ff := x.ff + c }

/-- Sum of the four cells of the boolean-pair `Counter`. -/
def BoolCounter.total (x : BoolCounter) : Nat := x.tt + x.ft + x.tf + x.ff

/-- `extract_binary_tally(class_name, tally)` from `assess.py`: reduce each
tally pair to "does the class appear in the expected combination" times
"does it appear in the predicted combination", weighted by the count, and
return `(TP, FP, FN, TN)`. -/
def extract_binary_tally (class_name : String) (tally : Tally) :
    Nat × Nat × Nat × Nat :=
  let bt := tally.foldl
    (fun bt kv =>
      bump bt ((pySplit ';' kv.1.1).contains class_name)
        ((pySplit ';' kv.1.2).contains class_name) kv.2)
    {}
  (bt.tt, bt.ft, bt.tf, bt.ff)

/-- One iteration of the loop over tally entries in `extract_global_tally`:
a fully-empty entry takes the special-cased fast path adding
`count * len(sp_list)` straight to TN; any other entry loops over every
species in `sp_list`. -/
def globalStep (sp_list : List String) (x : BoolCounter)
    (kv : (String × String) × Nat) : BoolCounter :=
  if kv.1.1 = "" ∧ kv.1.2 = "" then
    { x with ff := x.ff + kv.2 * sp_list.length }
  else
    sp_list.foldl
      (fun x class_name =>
        bump x ((pySplit ';' kv.1.1).contains class_name)
          ((pySplit ';' kv.1.2).contains class_name) kv.2)
      x

/-- `extract_global_tally(tally, sp_list)` from `assess.py`: multi-label
confusion counts `(TP, FP, FN, TN)`. -/
def extract_global_tally (tally : Tally) (sp_list : List String) :
    Nat × Nat × Nat × Nat :=
  let x := tally.foldl (globalStep sp_list) {}
  (x.tt, x.ft, x.tf, x.ff)

/-- Variant of `globalStep` without the special-cased fast path for a
fully-empty tally entry: every entry runs the general per-species loop. -/
def globalStepGeneral (sp_list : List String) (x : BoolCounter)
    (kv : (String × String) × Nat) : BoolCounter :=
  sp_list.foldl
    (fun x class_name =>
      bump x ((pySplit ';' kv.1.1).contains class_name)
        ((pySplit ';' kv.1.2).contains class_name) kv.2)
    x

/-- Variant of `extract_global_tally` that always uses the general
per-species loop (the alternative implementation contemplated by the spec's
open question). -/
def extract_global_tally_general (tally : Tally) (sp_list : List String) :
    Nat × Nat × Nat × Nat :=
  let x := tally.foldl (globalStepGeneral sp_list) {}
  (x.tt, x.ft, x.tf, x.ff)

lemma total_bump (x : BoolCounter) (e p : Bool) (c : Nat) :
    (bump x e p c).total = x.total + c := by
  cases e <;> cases p <;> simp [bump, BoolCounter.total] <;> omega

lemma total_foldl_bump (l : List String) (f g : String → Bool) (c : Nat)
    (x : BoolCounter) :
    (l.foldl (fun x cn => bump x (f cn) (g cn) c) x).total
      = x.total + c * l.length := by
  induction l generalizing x with
  | nil => simp
  | cons hd tl ih =>
    rw [List.foldl_cons, ih, total_bump]
    simp only [List.length_cons]
    ring

lemma total_globalStep (sp_list : List String) (x : BoolCounter)
    (kv : (String × String) × Nat) :
    (globalStep sp_list x kv).total = x.total + kv.2 * sp_list.length := by
  unfold globalStep
  split
  · simp [BoolCounter.total]
    omega
  · exact total_foldl_bump sp_list _ _ kv.2 x

lemma total_globalStepGeneral (sp_list : List String) (x : BoolCounter)
    (kv : (String × String) × Nat) :
    (globalStepGeneral sp_list x kv).total
      = x.total + kv.2 * sp_list.length := by
  unfold globalStepGeneral
  exact total_foldl_bump sp_list _ _ kv.2 x

lemma total_foldl_globalStep (tally : Tally) (sp_list : List String)
    (x : BoolCounter) :
    (tally.foldl (globalStep sp_list) x).total
      = x.total + sp_list.length * tallyTotal tally := by
  induction tally generalizing x with
  | nil => simp [tallyTotal]
  | cons kv tl ih =>
    rw [List.foldl_cons, ih, total_globalStep]
    simp [tallyTotal]
    ring

lemma total_foldl_binary (class_name : String) (tally : Tally)
    (x : BoolCounter) :
    (tally.foldl
        (fun bt kv =>
          bump bt ((pySplit ';' kv.1.1).contains class_name)
            ((pySplit ';' kv.1.2).contains class_name) kv.2)
        x).total
      = x.total + tallyTotal tally := by
  induction tally generalizing x with
  | nil => simp [tallyTotal]
  | cons kv tl ih =>
    rw [List.foldl_cons, ih, total_bump]
    simp [tallyTotal]
    ring



lemma pySplit_empty : pySplit ';' "" = [""] := rfl

lemma contains_single_empty (cn : String) (h : cn ≠ "") :
    (([""] : List String).contains cn) = false := by
  simp [h]

lemma foldl_bump_all_empty (c : Nat) (l : List String) (x : BoolCounter)
    (h : ∀ cn ∈ l, cn ≠ "") :
    l.foldl
        (fun x cn =>
          bump x (([""] : List String).contains cn)
            (([""] : List String).contains cn) c) x
      = { x with ff := x.ff + c * l.length } := by
  induction l generalizing x with
  | nil => simp
  | cons hd tl ih =>
    rw [List.foldl_cons, contains_single_empty hd (h hd (by simp)),
      ih _ (fun cn hcn => h cn (by simp [hcn]))]
    simp only [bump, List.length_cons, BoolCounter.mk.injEq]
    exact ⟨trivial, trivial, trivial, by ring⟩

lemma globalStep_eq_general (sp_list : List String) (h : "" ∉ sp_list)
    (x : BoolCounter) (kv : (String × String) × Nat) :
    globalStep sp_list x kv = globalStepGeneral sp_list x kv := by
  have hne : ∀ cn ∈ sp_list, cn ≠ "" := fun cn hcn he => h (he ▸ hcn)
  unfold globalStep globalStepGeneral
  split
  · next hc =>
    simp only [hc.1, hc.2, pySplit_empty]
    rw [foldl_bump_all_empty kv.2 sp_list x hne]
  · rfl



lemma foldl_globalStep_eq_general (tally : Tally) (sp_list : List String)
    (h : "" ∉ sp_list) (x : BoolCounter) :
    tally.foldl (globalStep sp_list) x
      = tally.foldl (globalStepGeneral sp_list) x := by
  induction tally generalizing x with
  | nil => rfl
  | cons kv tl ih =>
    rw [List.foldl_cons, List.foldl_cons, globalStep_eq_general sp_list h x kv, ih]

/-- C4 -/
theorem extract_global_tally_fast_path_equiv (tally : Tally)
    (sp_list : List String) (h : "" ∉ sp_list) :
    extract_global_tally tally sp_list
        = extract_global_tally_general tally sp_list ∧
      ∀ (x : BoolCounter) (c : Nat),
        globalStep sp_list x (("", ""), c)
          = globalStepGeneral sp_list x (("", ""), c) := by
  constructor
  · unfold extract_global_tally extract_global_tally_general
    rw [foldl_globalStep_eq_general tally sp_list h]
  · intro x c
    exact globalStep_eq_general sp_list h x (("", ""), c)

/-- C4 witness -/
theorem extract_global_tally_fast_path_equiv_witness :
    ("" ∉ ["A", "B"]) ∧
      extract_global_tally [(("", ""), 2), (("A", "B"), 1)] ["A", "B"]
        = extract_global_tally_general [(("", ""), 2), (("A", "B"), 1)] ["A", "B"] := by
  refine ⟨by decide, ?_⟩
  exact (extract_global_tally_fast_path_equiv
    [(("", ""), 2), (("A", "B"), 1)] ["A", "B"] (by decide)).1

/-- C1 -/
theorem extract_global_tally_sum_eq (tally : Tally) (sp_list : List String)
    (hkeys : (tally.map (·.1)).Nodup)
    (hpos : ∀ kv ∈ tally, 0 < kv.2)
    (hcov : ∀ kv ∈ tally,
      (kv.1.1 ≠ "" → ∀ sp ∈ pySplit ';' kv.1.1, sp ∈ sp_list) ∧
      (kv.1.2 ≠ "" → ∀ sp ∈ pySplit ';' kv.1.2, sp ∈ sp_list)) :
    (extract_global_tally tally sp_list).1
        + (extract_global_tally tally sp_list).2.1
        + (extract_global_tally tally sp_list).2.2.1
        + (extract_global_tally tally sp_list).2.2.2
      = sp_list.length * tallyTotal tally := by
  have h := total_foldl_globalStep tally sp_list {}
  simp [BoolCounter.total] at h
  simp [extract_global_tally]
  omega

/-- C1 witness -/
theorem extract_global_tally_sum_eq_witness :
    (extract_global_tally [(("A", "A;B"), 2)] ["A", "B"]).1
        + (extract_global_tally [(("A", "A;B"), 2)] ["A", "B"]).2.1
        + (extract_global_tally [(("A", "A;B"), 2)] ["A", "B"]).2.2.1
        + (extract_global_tally [(("A", "A;B"), 2)] ["A", "B"]).2.2.2
      = 2 * tallyTotal [(("A", "A;B"), 2)] :=
  extract_global_tally_sum_eq [(("A", "A;B"), 2)] ["A", "B"]
    (by decide) (by decide) (by decide)

/-- C2 -/
theorem extract_binary_tally_sum_eq (class_name : String) (tally : Tally) :
    (extract_binary_tally class_name tally).1
        + (extract_binary_tally class_name tally).2.1
        + (extract_binary_tally class_name tally).2.2.1
        + (extract_binary_tally class_name tally).2.2.2
      = tallyTotal tally := by
  have h := total_foldl_binary class_name tally {}
  simp [BoolCounter.total] at h
  simp [extract_binary_tally]
  omega

/-- C3 -/
theorem extract_global_tally_fixed_vectors :
    extract_global_tally [(("", ""), 1)] ["A"] = (0, 0, 0, 1) ∧
    extract_global_tally [(("", ""), 1)] ["A", "B", "C", "D"] = (0, 0, 0, 4) ∧
    extract_global_tally [(("", "A"), 1)] ["A"] = (0, 1, 0, 0) ∧
    extract_global_tally [(("A", ""), 1)] ["A"] = (0, 0, 1, 0) ∧
    extract_global_tally [(("A", "A"), 1)] ["A", "B", "C", "D"] = (1, 0, 0, 3) ∧
    extract_global_tally [(("A", "B"), 1)] ["A", "B"] = (0, 1, 1, 0) ∧
    extract_global_tally [(("A;B", "A;B"), 1)] ["A", "B"] = (2, 0, 0, 0) ∧
    extract_global_tally [(("A;B", "A;C"), 1)] ["A", "B", "C", "D"] = (1, 1, 1, 1) := by
  decide



/-- `sensitivity = float(tp) / (tp + fn) if tp else 0.0` from `main` in
`assess.py`, with Python float division embedded as exact division in `ℚ`. -/
def sensitivity (tp fn : Nat) : ℚ :=
  if tp ≠ 0 then (tp : ℚ) / ((tp : ℚ) + (fn : ℚ)) else 0

/-- `specificity = float(tn) / (tn + fp) if tn else 0.0` from `main`. -/
def specificity (tn fp : Nat) : ℚ :=
  if tn ≠ 0 then (tn : ℚ) / ((tn : ℚ) + (fp : ℚ)) else 0

/-- `precision = float(tp) / (tp + fp) if tp else 0.0` from `main`. -/
def precisionPPV (tp fp : Nat) : ℚ :=
  if tp ≠ 0 then (tp : ℚ) / ((tp : ℚ) + (fp : ℚ)) else 0

/-- `f1 = tp * 2.0 / (2 * tp + fp + fn) if tp else 0.0` from `main`. -/
def f1 (tp fp fn : Nat) : ℚ :=
  if tp ≠ 0 then (tp : ℚ) * 2 / (2 * (tp : ℚ) + (fp : ℚ) + (fn : ℚ)) else 0

/-- `hamming_loss = float(fp + fn) / (tp + fp + fn + tn)` from `main`; the
`try`/`except ZeroDivisionError` that yields `0.0` fires exactly when the
integer denominator is zero. -/
def hamming_loss (tp fp fn tn : Nat) : ℚ :=
  if tp + fp + fn + tn = 0 then 0
  else ((fp + fn : Nat) : ℚ) / ((tp + fp + fn + tn : Nat) : ℚ)

/-- `ad_hoc_loss = float(fp + fn) / (tp + fp + fn)` from `main`, with the
same `ZeroDivisionError` handling. -/
def ad_hoc_loss (tp fp fn : Nat) : ℚ :=
  if tp + fp + fn = 0 then 0
  else ((fp + fn : Nat) : ℚ) / ((tp + fp + fn : Nat) : ℚ)

/-- The spec's wording of the same six ratios: "sensitivity = TP/(TP+FN),
or 0 if TP=0", and so on. -/
def sensitivitySpec (tp fn : Nat) : ℚ :=
  if tp = 0 then 0 else (tp : ℚ) / ((tp : ℚ) + (fn : ℚ))

/-- Spec wording: "specificity = TN/(TN+FP), or 0 if TN=0". -/
def specificitySpec (tn fp : Nat) : ℚ :=
  if tn = 0 then 0 else (tn : ℚ) / ((tn : ℚ) + (fp : ℚ))

/-- Spec wording: "precision = TP/(TP+FP), or 0 if TP=0". -/
def precisionSpec (tp fp : Nat) : ℚ :=
  if tp = 0 then 0 else (tp : ℚ) / ((tp : ℚ) + (fp : ℚ))

/-- Spec wording: "F1 = 2·TP/(2·TP+FP+FN), or 0 if TP=0". -/
def f1Spec (tp fp fn : Nat) : ℚ :=
  if tp = 0 then 0 else 2 * (tp : ℚ) / (2 * (tp : ℚ) + (fp : ℚ) + (fn : ℚ))

/-- Spec wording: "Hamming-loss = (FP+FN)/(TP+FP+FN+TN), or 0 if that
denominator is 0". -/
def hammingSpec (tp fp fn tn : Nat) : ℚ :=
  if tp + fp + fn + tn = 0 then 0
  else ((fp : ℚ) + (fn : ℚ)) / ((tp : ℚ) + (fp : ℚ) + (fn : ℚ) + (tn : ℚ))

/-- Spec wording: "ad-hoc-loss = (FP+FN)/(TP+FP+FN), or 0 if that
denominator is 0". -/
def adHocSpec (tp fp fn : Nat) : ℚ :=
  if tp + fp + fn = 0 then 0
  else ((fp : ℚ) + (fn : ℚ)) / ((tp : ℚ) + (fp : ℚ) + (fn : ℚ))

/-- C5 -/
theorem metrics_ratios_match_spec (tp fp fn tn : Nat) :
    sensitivity tp fn = sensitivitySpec tp fn ∧
    specificity tn fp = specificitySpec tn fp ∧
    precisionPPV tp fp = precisionSpec tp fp ∧
    f1 tp fp fn = f1Spec tp fp fn ∧
    hamming_loss tp fp fn tn = hammingSpec tp fp fn tn ∧
    ad_hoc_loss tp fp fn = adHocSpec tp fp fn := by
  refine ⟨?_, ?_, ?_, ?_, ?_, ?_⟩
  · by_cases h : tp = 0 <;> simp [sensitivity, sensitivitySpec, h]
  · by_cases h : tn = 0 <;> simp [specificity, specificitySpec, h]
  · by_cases h : tp = 0 <;> simp [precisionPPV, precisionSpec, h]
  · by_cases h : tp = 0 <;> simp [f1, f1Spec, h] <;> ring
  · by_cases h : tp + fp + fn + tn = 0 <;> simp [hamming_loss, hammingSpec, h]
  · by_cases h : tp + fp + fn = 0 <;> simp [ad_hoc_loss, adHocSpec, h]



/-- Python `set.add`: insert a string into the (list-modelled) set. -/
def addToSet (l : List String) (s : String) : List String :=
  if l.contains s then l else l ++ [s]

/-- Order used to model Python `sorted` on strings: code-point lexicographic
comparison of the character data. -/
def strRel (a b : String) : Prop := a.data ≤ b.data

instance : DecidableRel strRel :=
  fun a b => inferInstanceAs (Decidable (a.data ≤ b.data))

instance : IsTotal String strRel := ⟨fun a b => le_total a.data b.data⟩

instance : IsTrans String strRel := ⟨fun _ _ _ h1 h2 => le_trans h1 h2⟩

/-- The loop over `expt.split(";")` in `class_list_from_tally_and_db_list`:
every label is added to `classes`, and labels missing from the database
species list are additionally recorded in `impossible`.  The state is
`(classes, impossible)`. -/
def processExpt (db : List String) (st : List String × List String)
    (labels : List String) : List String × List String :=
  labels.foldl
    (fun st sp =>
      (addToSet st.1 sp, if db.contains sp then st.2 else addToSet st.2 sp))
    st

/-- The loop over `pred.split(";")` in `class_list_from_tally_and_db_list`:
every label is added to `classes`, and a label missing from the database
species list is a fatal `sys.exit`. -/
def processPred (db : List String) (classes : List String)
    (labels : List String) : Except String (List String) :=
  labels.foldlM
    (fun classes sp =>
      let classes := addToSet classes sp
      if db.contains sp then pure classes
      else
        Except.error
          ("ERROR: Predicted species " ++ sp ++ " was not in the database!"))
    classes

/-- One iteration of `for expt, pred in tally` in
`class_list_from_tally_and_db_list`. -/
def classKeyStep (db : List String) (st : List String × List String)
    (key : String × String) : Except String (List String × List String) :=
  let st1 := if key.1 ≠ "" then processExpt db st (pySplit ';' key.1) else st
  if key.2 ≠ "" then do
    let classes ← processPred db st1.1 (pySplit ';' key.2)
    pure (classes, st1.2)
  else pure st1

/-- `class_list_from_tally_and_db_list(tally, db_sp_list)` from `assess.py`.
The returned pair is `(sorted class list, sorted impossible list)`: the
second component models the content of the `WARNING: ... expected species
were not a possible prediction` message written to stderr when it is
non-empty. -/
def class_list_from_tally_and_db_list (tally : List (String × String))
    (db_sp_list : List String) :
    Except String (List String × List String) := do
  let st ← tally.foldlM (classKeyStep db_sp_list) ([], [])
  let classes := db_sp_list.foldl addToSet st.1
  pure (List.insertionSort strRel classes, List.insertionSort strRel st.2)

lemma mem_addToSet_of_mem {l : List String} {t : String} (s : String)
    (h : t ∈ l) : t ∈ addToSet l s := by
  unfold addToSet
  split
  · exact h
  · exact List.mem_append_left _ h

lemma mem_addToSet_self (l : List String) (s : String) : s ∈ addToSet l s := by
  unfold addToSet
  split
  · next h => simpa using h
  · simp

lemma processExpt_spec (db : List String) (labels : List String) :
    ∀ st : List String × List String,
      (∀ t ∈ st.1, t ∈ (processExpt db st labels).1) ∧
      (∀ t ∈ st.2, t ∈ (processExpt db st labels).2) ∧
      (∀ sp ∈ labels,
        sp ∈ (processExpt db st labels).1 ∧
        (sp ∉ db → sp ∈ (processExpt db st labels).2)) := by
  induction labels with
  | nil => intro st; simp [processExpt]
  | cons hd tl ih =>
    intro st
    have hstep :
        processExpt db st (hd :: tl)
          = processExpt db
              (addToSet st.1 hd,
                if db.contains hd then st.2 else addToSet st.2 hd) tl := rfl
    obtain ⟨ih1, ih2, ih3⟩ :=
      ih (addToSet st.1 hd,
        if db.contains hd then st.2 else addToSet st.2 hd)
    rw [hstep]
    refine ⟨?_, ?_, ?_⟩
    · intro t ht
      exact ih1 t (mem_addToSet_of_mem hd ht)
    · intro t ht
      refine ih2 t ?_
      split
      · exact ht
      · exact mem_addToSet_of_mem hd ht
    · intro sp hsp
      rcases List.mem_cons.mp hsp with hsp | hsp
      · subst hsp
        refine ⟨ih1 sp (mem_addToSet_self st.1 sp), fun hdb => ?_⟩
        refine ih2 sp ?_
        have : db.contains sp = false := by simp [hdb]
        rw [this]
        simpa using mem_addToSet_self st.2 sp
      · exact ih3 sp hsp

lemma processPred_ok (db : List String) (labels : List String)
    (hall : ∀ sp ∈ labels, sp ∈ db) :
    ∀ classes : List String, ∃ cl,
      processPred db classes labels = Except.ok cl ∧
      ∀ t ∈ classes, t ∈ cl := by
  induction labels with
  | nil => intro classes; exact ⟨classes, rfl, fun t ht => ht⟩
  | cons hd tl ih =>
    intro classes
    have hhd : db.contains hd = true := by
      simpa using hall hd (by simp)
    obtain ⟨cl, hcl, hmono⟩ :=
      ih (fun sp hsp => hall sp (by simp [hsp])) (addToSet classes hd)
    refine ⟨cl, ?_, fun t ht => hmono t (mem_addToSet_of_mem hd ht)⟩
    simp only [processPred, List.foldlM_cons, hhd]
    simpa [processPred] using hcl

lemma processPred_err (db : List String) (labels : List String)
    (hbad : ∃ sp ∈ labels, sp ∉ db) :
    ∀ classes : List String, ∃ e,
      processPred db classes labels = Except.error e := by
  induction labels with
  | nil => simp at hbad
  | cons hd tl ih =>
    intro classes
    by_cases hhd : hd ∈ db
    · have hc : db.contains hd = true := by simpa using hhd
      obtain ⟨sp, hsp, hspdb⟩ := hbad
      rcases List.mem_cons.mp hsp with h | h
      · exact absurd (h ▸ hhd) hspdb
      · obtain ⟨e, he⟩ := ih ⟨sp, h, hspdb⟩ (addToSet classes hd)
        refine ⟨e, ?_⟩
        simp only [processPred, List.foldlM_cons, hc]
        simpa [processPred] using he
    · have hc : db.contains hd = false := by simp [hhd]
      refine ⟨"ERROR: Predicted species " ++ hd ++ " was not in the database!", ?_⟩
      simp only [processPred, List.foldlM_cons, hc]
      rfl



lemma classKeyStep_ok (db : List String) (st : List String × List String)
    (key : String × String)
    (hpred : key.2 ≠ "" → ∀ sp ∈ pySplit ';' key.2, sp ∈ db) :
    ∃ st', classKeyStep db st key = Except.ok st' ∧
      (∀ t ∈ st.1, t ∈ st'.1) ∧ (∀ t ∈ st.2, t ∈ st'.2) ∧
      (key.1 ≠ "" → ∀ sp ∈ pySplit ';' key.1,
        sp ∈ st'.1 ∧ (sp ∉ db → sp ∈ st'.2)) := by
  have hmono1 :
      ∀ t ∈ st.1,
        t ∈ (if key.1 ≠ "" then processExpt db st (pySplit ';' key.1) else st).1 := by
    split
    · exact fun t ht => (processExpt_spec db _ st).1 t ht
    · exact fun t ht => ht
  have hmono2 :
      ∀ t ∈ st.2,
        t ∈ (if key.1 ≠ "" then processExpt db st (pySplit ';' key.1) else st).2 := by
    split
    · exact fun t ht => (processExpt_spec db _ st).2.1 t ht
    · exact fun t ht => ht
  have hins :
      key.1 ≠ "" → ∀ sp ∈ pySplit ';' key.1,
        sp ∈ (if key.1 ≠ "" then processExpt db st (pySplit ';' key.1) else st).1 ∧
        (sp ∉ db →
          sp ∈ (if key.1 ≠ "" then processExpt db st (pySplit ';' key.1) else st).2) := by
    intro h1 sp hsp
    rw [if_pos h1]
    exact ⟨((processExpt_spec db _ st).2.2 sp hsp).1,
      fun hdb => ((processExpt_spec db _ st).2.2 sp hsp).2 hdb⟩
  by_cases h2 : key.2 = ""
  · refine ⟨(if key.1 ≠ "" then processExpt db st (pySplit ';' key.1) else st),
      ?_, hmono1, hmono2, hins⟩
    simp only [classKeyStep, h2, ne_eq, not_true_eq_false, if_false, ite_not]
    rfl
  · obtain ⟨cl, hcl, hclmono⟩ := processPred_ok db _ (hpred h2)
      (if key.1 ≠ "" then processExpt db st (pySplit ';' key.1) else st).1
    refine ⟨(cl, (if key.1 ≠ "" then processExpt db st (pySplit ';' key.1) else st).2),
      ?_, fun t ht => hclmono t (hmono1 t ht), hmono2, ?_⟩
    · simp only [classKeyStep]
      rw [if_pos h2, hcl]
      rfl
    · intro h1 sp hsp
      obtain ⟨ha, hb⟩ := hins h1 sp hsp
      exact ⟨hclmono sp ha, fun hdb => hb hdb⟩

lemma classKeyStep_err (db : List String) (st : List String × List String)
    (key : String × String) (hne : key.2 ≠ "")
    (hbad : ∃ sp ∈ pySplit ';' key.2, sp ∉ db) :
    ∃ e, classKeyStep db st key = Except.error e := by
  obtain ⟨e, he⟩ := processPred_err db _ hbad
    (if key.1 ≠ "" then processExpt db st (pySplit ';' key.1) else st).1
  refine ⟨e, ?_⟩
  simp only [classKeyStep]
  rw [if_pos hne, he]
  rfl



lemma foldlM_classKeyStep_ok (db : List String) (tally : List (String × String))
    (hpred : ∀ kv ∈ tally, kv.2 ≠ "" → ∀ sp ∈ pySplit ';' kv.2, sp ∈ db) :
    ∀ st, ∃ st', tally.foldlM (classKeyStep db) st = Except.ok st' ∧
      (∀ t ∈ st.1, t ∈ st'.1) ∧ (∀ t ∈ st.2, t ∈ st'.2) ∧
      (∀ kv ∈ tally, kv.1 ≠ "" → ∀ sp ∈ pySplit ';' kv.1,
        sp ∈ st'.1 ∧ (sp ∉ db → sp ∈ st'.2)) := by
  induction tally with
  | nil =>
    intro st
    exact ⟨st, rfl, fun t ht => ht, fun t ht => ht, by simp⟩
  | cons kv tl ih =>
    intro st
    obtain ⟨st1, hst1, m1, m2, hins⟩ := classKeyStep_ok db st kv (hpred kv (by simp))
    obtain ⟨st', hst', m1', m2', hins'⟩ :=
      ih (fun kv2 h2 => hpred kv2 (by simp [h2])) st1
    refine ⟨st', ?_, fun t ht => m1' t (m1 t ht), fun t ht => m2' t (m2 t ht), ?_⟩
    · rw [List.foldlM_cons, hst1]
      simpa using hst'
    · intro kv2 hkv2 hne sp hsp
      rcases List.mem_cons.mp hkv2 with h | h
      · subst h
        obtain ⟨ha, hb⟩ := hins hne sp hsp
        exact ⟨m1' sp ha, fun hdb => m2' sp (hb hdb)⟩
      · exact hins' kv2 h hne sp hsp

lemma foldlM_classKeyStep_err (db : List String)
    (tally : List (String × String))
    (hbad : ∃ kv ∈ tally, kv.2 ≠ "" ∧ ∃ sp ∈ pySplit ';' kv.2, sp ∉ db) :
    ∀ st, ∃ e, tally.foldlM (classKeyStep db) st = Except.error e := by
  induction tally with
  | nil => simp at hbad
  | cons kv tl ih =>
    intro st
    obtain ⟨kv2, hkv2, hne, hbad2⟩ := hbad
    rcases List.mem_cons.mp hkv2 with h | h
    · subst h
      obtain ⟨e, he⟩ := classKeyStep_err db st kv2 hne hbad2
      refine ⟨e, ?_⟩
      rw [List.foldlM_cons, he]
      rfl
    · cases hstep : classKeyStep db st kv with
      | error e =>
        refine ⟨e, ?_⟩
        rw [List.foldlM_cons, hstep]
        rfl
      | ok st1 =>
        obtain ⟨e, he⟩ := ih ⟨kv2, h, hne, hbad2⟩ st1
        refine ⟨e, ?_⟩
        rw [List.foldlM_cons, hstep]
        simpa using he

lemma mem_foldl_addToSet (db : List String) (l : List String) (t : String)
    (h : t ∈ l) : t ∈ db.foldl addToSet l := by
  induction db generalizing l with
  | nil => exact h
  | cons hd tl ih => exact ih _ (mem_addToSet_of_mem hd h)

/-- C6: in `class_list_from_tally_and_db_list`, a species-level label that
appears in a predicted combination but is absent from the database species
list is a fatal error, whereas a label appearing only in expected
combinations and absent from the database is tolerated: the run continues,
the label is included in the returned sorted class list, and it is reported
in the warning (the returned impossible list). -/
theorem class_list_pred_fatal_expt_warned (tally : List (String × String))
    (db_sp_list : List String) (sp : String) :
    ((∃ kv ∈ tally, kv.2 ≠ "" ∧ sp ∈ pySplit ';' kv.2 ∧ sp ∉ db_sp_list) →
      ∃ e, class_list_from_tally_and_db_list tally db_sp_list
        = Except.error e) ∧
    ((∀ kv ∈ tally, kv.2 ≠ "" → ∀ s ∈ pySplit ';' kv.2, s ∈ db_sp_list) →
      (∃ kv ∈ tally, kv.1 ≠ "" ∧ sp ∈ pySplit ';' kv.1) →
      sp ∉ db_sp_list →
      ∃ cl imp,
        class_list_from_tally_and_db_list tally db_sp_list
          = Except.ok (cl, imp) ∧ sp ∈ cl ∧ sp ∈ imp) := by
  constructor
  · intro hbad
    obtain ⟨kv, hkv, hne, hsp, hdb⟩ := hbad
    obtain ⟨e, he⟩ := foldlM_classKeyStep_err db_sp_list tally
      ⟨kv, hkv, hne, sp, hsp, hdb⟩ ([], [])
    refine ⟨e, ?_⟩
    simp only [class_list_from_tally_and_db_list]
    rw [he]
    rfl
  · intro hgood hexpt hdb
    obtain ⟨st', hst', _, _, hins⟩ :=
      foldlM_classKeyStep_ok db_sp_list tally hgood ([], [])
    obtain ⟨kv, hkv, hne, hsp⟩ := hexpt
    obtain ⟨h1, h2⟩ := hins kv hkv hne sp hsp
    refine ⟨List.insertionSort strRel (db_sp_list.foldl addToSet st'.1),
      List.insertionSort strRel st'.2, ?_, ?_, ?_⟩
    · simp only [class_list_from_tally_and_db_list]
      rw [hst']
      rfl
    · exact (List.perm_insertionSort strRel _).mem_iff.mpr
        (mem_foldl_addToSet db_sp_list st'.1 sp h1)
    · exact (List.perm_insertionSort strRel _).mem_iff.mpr (h2 hdb)

/-- C6 witness -/
theorem class_list_pred_fatal_expt_warned_witness :
    (∃ e, class_list_from_tally_and_db_list [("", "Genus x")] ["Genus y"]
      = Except.error e) ∧
    (∃ cl imp, class_list_from_tally_and_db_list [("Genus x", "")] ["Genus y"]
      = Except.ok (cl, imp) ∧ "Genus x" ∈ cl ∧ "Genus x" ∈ imp) := by
  constructor
  · exact (class_list_pred_fatal_expt_warned [("", "Genus x")] ["Genus y"]
      "Genus x").1 (by decide)
  · exact (class_list_pred_fatal_expt_warned [("Genus x", "")] ["Genus y"]
      "Genus x").2 (by decide) (by decide) (by decide)



/-- Python's substring test `needle in hay`, scanning the haystack
character data. -/
def segAux (needle : List Char) : List Char → Bool
  | [] => needle.isEmpty
  | c :: t => needle.isPrefixOf (c :: t) || segAux needle t

/-- Python `needle in hay` for strings. -/
def strContainsSub (hay needle : String) : Bool := segAux needle.data hay.data

/-- The exact raw-string literal matched against the `ValueError` message in
`main` to detect the missing-header condition (Python `r"..."`, so the
backslash-n is two literal characters). -/
def missing_header_token : String :=
  "Missing #Marker/MD5_abundance(tab)...(tab)Sequence\\n line"

/-- Which input shape `main` decided a file has. -/
inductive FileBranch where
  | tallyFormat
  | legacyFormat
deriving DecidableEq, Repr

/-- The `try: parse_sample_tsv ... except ValueError as e:` dispatch in
`main` (`assess.py`): a successful parse is handled as the tally format; a
`ValueError` whose message does not contain `missing_header_token` is fatal
(`sys.exit`); otherwise the file is retried as a legacy per-sample /
wildcard file.  The external parser `parse_sample_tsv` (from `utils`, not
part of the assessed module) is abstracted as its `Except` outcome. -/
def handle_parse_result {α : Type} (r : Except String α) (filename : String) :
    Except String FileBranch :=
  match r with
  | Except.ok _ => Except.ok FileBranch.tallyFormat
  | Except.error e =>
    if ¬ (strContainsSub e missing_header_token = true) then
      Except.error ("ERROR: Unable to parse " ++ filename ++ "\n" ++ e ++ "\n")
    else Except.ok FileBranch.legacyFormat

/-- C7: the legacy fallback is taken exactly when the tally-format parser
fails with the specific missing-header message; any other parse failure is
fatal, and a successful parse is handled as the tally format. -/
theorem legacy_fallback_iff_missing_header (msg filename : String) :
    (handle_parse_result (Except.error msg : Except String Unit) filename
        = Except.ok FileBranch.legacyFormat
      ↔ strContainsSub msg missing_header_token = true) ∧
    ((∃ e, handle_parse_result (Except.error msg : Except String Unit) filename
        = Except.error e)
      ↔ strContainsSub msg missing_header_token = false) ∧
    handle_parse_result (Except.ok () : Except String Unit) filename
      = Except.ok FileBranch.tallyFormat := by
  by_cases h : strContainsSub msg missing_header_token = true <;>
    simp [handle_parse_result, h]



/-- Modelled from the spec: `species_level` from the `utils` module (not
part of the assessed source).  The spec defines a species-level label as a
"Genus species" string containing a separator between genus and specific
epithet, as opposed to a bare genus. -/
def species_level (name : String) : Bool := name.data.contains ' '

/-- Lookup in the per-file sequence metadata: the `genus-species` annotation
for a `(marker, sequence-identifier)` key, modelling
`seq_meta[marker2, idn]["genus-species"]` (a `KeyError` becomes `none`). -/
def seqMetaLookup (seq_meta : List ((String × String) × String))
    (k : String × String) : Option String :=
  (seq_meta.find? (fun kv => kv.1 == k)).map (·.2)

/-- `synonyms.get(name, name)` from `main`. -/
def synLookup (synonyms : List (String × String)) (name : String) : String :=
  ((synonyms.find? (fun kv => kv.1 == name)).map (·.2)).getD name

/-- `sample in sample_dict` / `sample_dict[sample]`, on the association-list
model of the Python dict. -/
def sampleLookup (d : List (String × List String)) (k : String) :
    Option (List String) :=
  (d.find? (fun kv => kv.1 == k)).map (·.2)

/-- `sample_dict[sample] = v`: replace the value if the key is present,
otherwise append the new key (Python dicts keep insertion order). -/
def sampleSet (d : List (String × List String)) (k : String)
    (v : List String) : List (String × List String) :=
  if (sampleLookup d k).isSome then
    d.map (fun kv => if kv.1 == k then (kv.1, v) else kv)
  else d ++ [(k, v)]

/-- `if marker and marker != marker2` from `main`. -/
def markerMismatch (marker : Option String) (marker2 : String) : Bool :=
  match marker with
  | some m => m != marker2
  | none => false

/-- One iteration of `for (marker2, idn, sample), a in counts.items()` in
the tally-format branch of `main`: fatal on a marker mismatch or a missing
genus-species annotation, otherwise union the (synonym-resolved,
species-level-filtered) labels into the sample's entry.  Error messages
carry the same content as the `sys.exit` calls minus the file name, which
is not threaded into this model. -/
def countStep (marker : Option String) (synonyms : List (String × String))
    (seq_meta : List ((String × String) × String))
    (d : List (String × List String))
    (entry : (String × String × String) × Nat) :
    Except String (List (String × List String)) :=
  let marker2 := entry.1.1
  let idn := entry.1.2.1
  let sample := entry.1.2.2
  if markerMismatch marker marker2 then
    Except.error ("ERROR: Assessing marker, found " ++ marker2)
  else
    match seqMetaLookup seq_meta (marker2, idn) with
    | none => Except.error ("ERROR: No " ++ marker2 ++ "/" ++ idn ++ " genus-species")
    | some gs =>
      let g1 := ((pySplit ';' gs).filter (fun s => species_level s)).foldl addToSet []
      let g2 := (g1.map (fun s => synLookup synonyms s)).foldl addToSet []
      match sampleLookup d sample with
      | some old => Except.ok (sampleSet d sample (g2.foldl addToSet old))
      | none => Except.ok (sampleSet d sample g2)

/-- The tally-format success branch of the loader loop in `main`
(`assess.py`): first register every sample named in the file's sample
metadata ("Zero count samples would otherwise be omitted"), then process
the per-sequence counts. -/
def register_tally_samples (marker : Option String)
    (synonyms : List (String × String)) (sample_meta : List String)
    (seq_meta : List ((String × String) × String))
    (counts : List ((String × String × String) × Nat))
    (sample_dict : List (String × List String)) :
    Except String (List (String × List String)) :=
  let d := sample_meta.foldl
    (fun d sample =>
      if (sampleLookup d sample).isSome then d else sampleSet d sample [])
    sample_dict
  counts.foldlM (countStep marker synonyms seq_meta) d

/-- The key list of the association-list model of `sample_dict`. -/
def sampleKeys (d : List (String × List String)) : List String := d.map (·.1)

lemma sampleLookup_isSome_iff (d : List (String × List String)) (k : String) :
    (sampleLookup d k).isSome = true ↔ k ∈ sampleKeys d := by
  simp [sampleLookup, sampleKeys, List.find?_isSome, List.mem_map]

lemma sampleKeys_sampleSet (d : List (String × List String)) (k : String)
    (v : List String) :
    sampleKeys (sampleSet d k v)
      = if (sampleLookup d k).isSome then sampleKeys d
        else sampleKeys d ++ [k] := by
  unfold sampleSet
  split
  · unfold sampleKeys
    rw [List.map_map]
    refine List.map_congr_left fun kv _ => ?_
    by_cases hk : kv.1 = k <;> simp [hk]
  · simp [sampleKeys]

lemma mem_sampleKeys_sampleSet_of_mem (d : List (String × List String))
    (k : String) (v : List String) (t : String) (h : t ∈ sampleKeys d) :
    t ∈ sampleKeys (sampleSet d k v) := by
  rw [sampleKeys_sampleSet]
  split
  · exact h
  · simp [h]

lemma mem_sampleKeys_sampleSet_self (d : List (String × List String))
    (k : String) (v : List String) : k ∈ sampleKeys (sampleSet d k v) := by
  rw [sampleKeys_sampleSet]
  split
  · next h => exact (sampleLookup_isSome_iff d k).mp h
  · simp



lemma reg_foldl_keys (sample_meta : List String) :
    ∀ d : List (String × List String),
      (∀ s ∈ sample_meta,
        s ∈ sampleKeys (sample_meta.foldl
          (fun d sample =>
            if (sampleLookup d sample).isSome then d else sampleSet d sample [])
          d)) ∧
      (∀ t ∈ sampleKeys d,
        t ∈ sampleKeys (sample_meta.foldl
          (fun d sample =>
            if (sampleLookup d sample).isSome then d else sampleSet d sample [])
          d)) := by
  induction sample_meta with
  | nil => intro d; exact ⟨by simp, fun t ht => ht⟩
  | cons hd tl ih =>
    intro d
    obtain ⟨ih1, ih2⟩ :=
      ih (if (sampleLookup d hd).isSome then d else sampleSet d hd [])
    have hhd :
        hd ∈ sampleKeys
          (if (sampleLookup d hd).isSome then d else sampleSet d hd []) := by
      split
      · next h => exact (sampleLookup_isSome_iff d hd).mp h
      · exact mem_sampleKeys_sampleSet_self d hd []
    have hmono :
        ∀ t ∈ sampleKeys d,
          t ∈ sampleKeys
            (if (sampleLookup d hd).isSome then d else sampleSet d hd []) := by
      intro t ht
      split
      · exact ht
      · exact mem_sampleKeys_sampleSet_of_mem d hd [] t ht
    refine ⟨?_, ?_⟩
    · intro s hs
      rcases List.mem_cons.mp hs with h | h
      · subst h
        exact ih2 s hhd
      · exact ih1 s h
    · intro t ht
      exact ih2 t (hmono t ht)

lemma countStep_keys_mono (marker : Option String)
    (synonyms : List (String × String))
    (seq_meta : List ((String × String) × String))
    (d d' : List (String × List String))
    (entry : (String × String × String) × Nat)
    (h : countStep marker synonyms seq_meta d entry = Except.ok d')
    (t : String) (ht : t ∈ sampleKeys d) : t ∈ sampleKeys d' := by
  unfold countStep at h
  dsimp only at h
  split at h
  · exact Except.noConfusion h
  · split at h
    · exact Except.noConfusion h
    · split at h
      · next old hold =>
        obtain rfl : sampleSet d entry.1.2.2 _ = d' := Except.ok.inj h
        exact mem_sampleKeys_sampleSet_of_mem _ _ _ t ht
      · obtain rfl : sampleSet d entry.1.2.2 _ = d' := Except.ok.inj h
        exact mem_sampleKeys_sampleSet_of_mem _ _ _ t ht

lemma foldlM_countStep_keys (marker : Option String)
    (synonyms : List (String × String))
    (seq_meta : List ((String × String) × String))
    (counts : List ((String × String × String) × Nat)) :
    ∀ d d' : List (String × List String),
      counts.foldlM (countStep marker synonyms seq_meta) d = Except.ok d' →
      ∀ t ∈ sampleKeys d, t ∈ sampleKeys d' := by
  induction counts with
  | nil =>
    intro d d' h t ht
    obtain rfl : d = d' := Except.ok.inj h
    exact ht
  | cons entry rest ih =>
    intro d d' h t ht
    rw [List.foldlM_cons] at h
    cases hstep : countStep marker synonyms seq_meta d entry with
    | error e =>
      rw [hstep] at h
      exact Except.noConfusion h
    | ok d1 =>
      rw [hstep] at h
      exact ih d1 d' h t
        (countStep_keys_mono marker synonyms seq_meta d d1 entry hstep t ht)



lemma sampleLookup_sampleSet_self (d : List (String × List String))
    (k : String) (v : List String) :
    sampleLookup (sampleSet d k v) k = some v := by
  unfold sampleSet
  split
  · next h =>
    induction d with
    | nil => simp [sampleLookup] at h
    | cons kv rest ih =>
      by_cases hk : kv.1 = k
      · simp [sampleLookup, hk]
      · have h' : (sampleLookup rest k).isSome = true := by
          simpa [sampleLookup, hk] using h
        simpa [sampleLookup, hk] using ih h'
  · next h =>
    induction d with
    | nil => simp [sampleLookup]
    | cons kv rest ih =>
      by_cases hk : kv.1 = k
      · exact absurd (by simp [sampleLookup, hk]) h
      · have h' : ¬(sampleLookup rest k).isSome = true := by
          simpa [sampleLookup, hk] using h
        simpa [sampleLookup, hk] using ih h'

lemma lookup_replace_ne (d : List (String × List String)) (k : String)
    (v : List String) (t : String) (ht : t ≠ k) :
    sampleLookup (d.map (fun kv => if kv.1 == k then (kv.1, v) else kv)) t
      = sampleLookup d t := by
  induction d with
  | nil => rfl
  | cons kv rest ih =>
    by_cases hkt : kv.1 = t
    · have hk : ¬kv.1 = k := by
        rw [hkt]
        exact ht
      simp [sampleLookup, hk, hkt, ht, -List.find?_map]
    · have htk : ¬k = t := fun he => ht he.symm
      by_cases hk : kv.1 = k
      · simpa [sampleLookup, hk, hkt, ht, htk, -List.find?_map] using ih
      · simpa [sampleLookup, hk, hkt, ht, htk, -List.find?_map] using ih

lemma lookup_append_ne (d : List (String × List String)) (k : String)
    (v : List String) (t : String) (ht : t ≠ k) :
    sampleLookup (d ++ [(k, v)]) t = sampleLookup d t := by
  induction d with
  | nil =>
    have : ¬k = t := fun he => ht he.symm
    simp [sampleLookup, this]
  | cons kv rest ih =>
    by_cases hkt : kv.1 = t
    · simp [sampleLookup, hkt]
    · simpa [sampleLookup, hkt] using ih

lemma sampleLookup_sampleSet_ne (d : List (String × List String))
    (k : String) (v : List String) (t : String) (ht : t ≠ k) :
    sampleLookup (sampleSet d k v) t = sampleLookup d t := by
  unfold sampleSet
  split
  · exact lookup_replace_ne d k v t ht
  · exact lookup_append_ne d k v t ht



lemma reg_foldl_preserve (sample_meta : List String) :
    ∀ (d : List (String × List String)) (t : String) (v : List String),
      sampleLookup d t = some v →
      sampleLookup
          (sample_meta.foldl
            (fun d sample =>
              if (sampleLookup d sample).isSome then d
              else sampleSet d sample [])
            d) t
        = some v := by
  induction sample_meta with
  | nil => exact fun d t v h => h
  | cons hd tl ih =>
    intro d t v h
    rw [List.foldl_cons]
    by_cases hs : (sampleLookup d hd).isSome = true
    · rw [if_pos hs]
      exact ih d t v h
    · rw [if_neg hs]
      refine ih _ t v ?_
      have hne : t ≠ hd := by
        intro he
        rw [← he, h] at hs
        exact hs rfl
      rw [sampleLookup_sampleSet_ne d hd [] t hne]
      exact h

lemma reg_foldl_registers (sample_meta : List String) :
    ∀ (d : List (String × List String)) (s : String), s ∈ sample_meta →
      sampleLookup d s = none →
      sampleLookup
          (sample_meta.foldl
            (fun d sample =>
              if (sampleLookup d sample).isSome then d
              else sampleSet d sample [])
            d) s
        = some [] := by
  induction sample_meta with
  | nil => intro d s hs; simp at hs
  | cons hd tl ih =>
    intro d s hs hnone
    rw [List.foldl_cons]
    by_cases he : s = hd
    · subst he
      rw [if_neg (by simp [hnone])]
      exact reg_foldl_preserve tl _ s []
        (sampleLookup_sampleSet_self d s [])
    · have hs' : s ∈ tl := by
        rcases List.mem_cons.mp hs with h | h
        · exact absurd h he
        · exact h
      by_cases hhd : (sampleLookup d hd).isSome = true
      · rw [if_pos hhd]
        exact ih d s hs' hnone
      · rw [if_neg hhd]
        refine ih _ s hs' ?_
        rw [sampleLookup_sampleSet_ne d hd [] s he]
        exact hnone

lemma countStep_preserves_empty (marker : Option String)
    (synonyms : List (String × String))
    (seq_meta : List ((String × String) × String))
    (d d' : List (String × List String))
    (entry : (String × String × String) × Nat)
    (h : countStep marker synonyms seq_meta d entry = Except.ok d')
    (s : String) (hs : sampleLookup d s = some [])
    (hentry : entry.1.2.2 = s →
      ∀ gs, seqMetaLookup seq_meta (entry.1.1, entry.1.2.1) = some gs →
        (pySplit ';' gs).filter (fun l => species_level l) = []) :
    sampleLookup d' s = some [] := by
  unfold countStep at h
  dsimp only at h
  split at h
  · exact Except.noConfusion h
  · split at h
    · exact Except.noConfusion h
    · next gs hgs =>
      by_cases he : entry.1.2.2 = s
      · have hfilter := hentry he gs hgs
        rw [hfilter] at h
        simp only [List.foldl_nil, List.map_nil] at h
        split at h
        · next old hold =>
          rw [he, hs] at hold
          obtain rfl : ([] : List String) = old := (Option.some.inj hold)
          obtain rfl : sampleSet d entry.1.2.2 ([].foldl addToSet []) = d' :=
            Except.ok.inj h
          rw [he]
          exact sampleLookup_sampleSet_self d s []
        · next hold =>
          rw [he, hs] at hold
          exact Option.noConfusion hold
      · split at h
        · obtain rfl : sampleSet d entry.1.2.2 _ = d' := Except.ok.inj h
          rw [sampleLookup_sampleSet_ne d entry.1.2.2 _ s
            (fun hc => he hc.symm)]
          exact hs
        · obtain rfl : sampleSet d entry.1.2.2 _ = d' := Except.ok.inj h
          rw [sampleLookup_sampleSet_ne d entry.1.2.2 _ s
            (fun hc => he hc.symm)]
          exact hs

lemma foldlM_countStep_empty (marker : Option String)
    (synonyms : List (String × String))
    (seq_meta : List ((String × String) × String))
    (counts : List ((String × String × String) × Nat)) (s : String) :
    ∀ d d' : List (String × List String),
      counts.foldlM (countStep marker synonyms seq_meta) d = Except.ok d' →
      sampleLookup d s = some [] →
      (∀ entry ∈ counts, entry.1.2.2 = s →
        ∀ gs, seqMetaLookup seq_meta (entry.1.1, entry.1.2.1) = some gs →
          (pySplit ';' gs).filter (fun l => species_level l) = []) →
      sampleLookup d' s = some [] := by
  induction counts with
  | nil =>
    intro d d' h hs _
    obtain rfl : d = d' := Except.ok.inj h
    exact hs
  | cons entry rest ih =>
    intro d d' h hs hno
    rw [List.foldlM_cons] at h
    cases hstep : countStep marker synonyms seq_meta d entry with
    | error e =>
      rw [hstep] at h
      exact Except.noConfusion h
    | ok d1 =>
      rw [hstep] at h
      refine ih d1 d' h ?_ (fun e he => hno e (by simp [he]))
      exact countStep_preserves_empty marker synonyms seq_meta d d1 entry
        hstep s hs (hno entry (by simp))

/-- C8: when the tally-format branch of the loader succeeds, every sample
named in the file's sample metadata is registered in the resulting
sample-to-labels map, and a sample not already carried over from an earlier
file whose observations all fail the species-level filter ends up with the
empty label set; no sample is silently dropped.  (The minimum-abundance
filter is applied upstream by `parse_sample_tsv`, so `counts` holds only
the surviving observations -- the code asserts `a >= min_abundance`; the
species-level filter is the `species_level` test in the counts loop.) -/
theorem tally_samples_all_registered (marker : Option String)
    (synonyms : List (String × String)) (sample_meta : List String)
    (seq_meta : List ((String × String) × String))
    (counts : List ((String × String × String) × Nat))
    (sample_dict d' : List (String × List String))
    (hok : register_tally_samples marker synonyms sample_meta seq_meta counts
      sample_dict = Except.ok d')
    (s : String) (hs : s ∈ sample_meta) :
    (sampleLookup d' s).isSome = true ∧
    (sampleLookup sample_dict s = none →
      (∀ entry ∈ counts, entry.1.2.2 = s →
        ∀ gs, seqMetaLookup seq_meta (entry.1.1, entry.1.2.1) = some gs →
          (pySplit ';' gs).filter (fun l => species_level l) = []) →
      sampleLookup d' s = some []) := by
  unfold register_tally_samples at hok
  constructor
  · refine (sampleLookup_isSome_iff d' s).mpr ?_
    refine foldlM_countStep_keys marker synonyms seq_meta counts _ d' hok s ?_
    exact (reg_foldl_keys sample_meta sample_dict).1 s hs
  · intro hfresh hnosurv
    refine foldlM_countStep_empty marker synonyms seq_meta counts s _ d'
      hok ?_ hnosurv
    exact reg_foldl_registers sample_meta sample_dict s hs hfresh

/-- C8 witness: one sample, one surviving observation whose genus-only
annotation is removed by the species-level filter; the sample is still
registered, with the empty label set. -/
theorem tally_samples_all_registered_witness :
    (sampleLookup [("s1", ([] : List String))] "s1").isSome = true ∧
    sampleLookup [("s1", ([] : List String))] "s1" = some [] := by
  have h := tally_samples_all_registered none [] ["s1"]
    [(("ITS1", "m1"), "Genus")] [(("ITS1", "m1", "s1"), 5)] []
    [("s1", [])] rfl "s1" (by simp)
  exact ⟨h.1, h.2 rfl (by decide)⟩



lemma strData_inj {a b : String} (h : a.data = b.data) : a = b := by
  cases a
  cases b
  exact congrArg String.mk h

/-- Python's ordering on `(expected, predicted)` string pairs, as used by
`sorted(tally)` in `save_mapping`: lexicographic on the pair, with strings
compared lexicographically by code point. -/
def keyLe (x y : String × String) : Prop :=
  x.1.data < y.1.data ∨ (x.1.data = y.1.data ∧ x.2.data ≤ y.2.data)

instance : DecidableRel keyLe := fun x y => by
  unfold keyLe
  infer_instance

instance : IsTotal (String × String) keyLe := ⟨by
  intro a b
  rcases lt_trichotomy a.1.data b.1.data with h | h | h
  · exact Or.inl (Or.inl h)
  · rcases le_total a.2.data b.2.data with h2 | h2
    · exact Or.inl (Or.inr ⟨h, h2⟩)
    · exact Or.inr (Or.inr ⟨h.symm, h2⟩)
  · exact Or.inr (Or.inl h)⟩

instance : IsTrans (String × String) keyLe := ⟨by
  intro a b c hab hbc
  rcases hab with h1 | ⟨h1, h1'⟩ <;> rcases hbc with h2 | ⟨h2, h2'⟩
  · exact Or.inl (lt_trans h1 h2)
  · exact Or.inl (h2 ▸ h1)
  · exact Or.inl (h1 ▸ h2)
  · exact Or.inr ⟨h1.trans h2, le_trans h1' h2'⟩⟩

instance : IsAntisymm (String × String) keyLe := ⟨by
  intro a b hab hba
  rcases hab with h1 | ⟨h1, h1'⟩ <;> rcases hba with h2 | ⟨h2, h2'⟩
  · exact absurd h2 (lt_asymm h1)
  · exact absurd h1 (by rw [h2]; exact lt_irrefl _)
  · exact absurd h2 (by rw [h1]; exact lt_irrefl _)
  · exact Prod.ext (strData_inj h1) (strData_inj (le_antisymm h1' h2'))⟩

/-- The keys of the tally dict (in insertion order). -/
def tallyKeys (tally : Tally) : List (String × String) := tally.map (·.1)

/-- `tally[expt, pred]` as an optional lookup. -/
def findCount (tally : Tally) (k : String × String) : Option Nat :=
  (tally.find? (fun kv => kv.1 == k)).map (·.2)

/-- One output row of `save_mapping`:
`f"{tally[expt, pred]}\t{expt}\t{pred}"`. -/
def mappingRow (tally : Tally) (k : String × String) : String :=
  toString ((findCount tally k).getD 0) ++ "\t" ++ k.1 ++ "\t" ++ k.2

/-- `save_mapping(tally, filename)` from `assess.py`, modelled as the list
of lines written: the header, then one row per tally key in
`sorted(tally)` order. -/
def save_mapping (tally : Tally) : List String :=
  "#sample-count\tExpected\tPredicted"
    :: (List.insertionSort keyLe (tallyKeys tally)).map (mappingRow tally)

lemma findCount_isSome_iff (t : Tally) (k : String × String) :
    (findCount t k).isSome = true ↔ k ∈ tallyKeys t := by
  simp [findCount, tallyKeys, List.find?_isSome, List.mem_map]

/-- C9: `save_mapping` writes exactly one row per distinct tally key, in
lexicographic key order, and its output depends only on the tally as a
mapping: two tallies with the same keys and counts (in any insertion
order) produce identical output. -/
theorem save_mapping_deterministic (t1 t2 : Tally)
    (h1 : (tallyKeys t1).Nodup) (h2 : (tallyKeys t2).Nodup)
    (hagree : ∀ k ∈ tallyKeys t1 ++ tallyKeys t2,
      findCount t1 k = findCount t2 k) :
    save_mapping t1 = save_mapping t2 ∧
    List.Sorted keyLe (List.insertionSort keyLe (tallyKeys t1)) ∧
    (List.insertionSort keyLe (tallyKeys t1)).Perm (tallyKeys t1) ∧
    save_mapping t1
      = "#sample-count\tExpected\tPredicted"
          :: (List.insertionSort keyLe (tallyKeys t1)).map (mappingRow t1) := by
  have hmem : ∀ k, k ∈ tallyKeys t1 ↔ k ∈ tallyKeys t2 := by
    intro k
    constructor
    · intro hk
      have he := hagree k (List.mem_append_left _ hk)
      have hs := (findCount_isSome_iff t1 k).mpr hk
      rw [he] at hs
      exact (findCount_isSome_iff t2 k).mp hs
    · intro hk
      have he := hagree k (List.mem_append_right _ hk)
      have hs := (findCount_isSome_iff t2 k).mpr hk
      rw [← he] at hs
      exact (findCount_isSome_iff t1 k).mp hs
  have hperm : (tallyKeys t1).Perm (tallyKeys t2) :=
    (List.perm_ext_iff_of_nodup h1 h2).mpr hmem
  have hsorted1 := List.sorted_insertionSort keyLe (tallyKeys t1)
  have hsorted2 := List.sorted_insertionSort keyLe (tallyKeys t2)
  have hsortperm :
      (List.insertionSort keyLe (tallyKeys t1)).Perm
        (List.insertionSort keyLe (tallyKeys t2)) :=
    ((List.perm_insertionSort keyLe _).trans hperm).trans
      (List.perm_insertionSort keyLe _).symm
  have hsorteq :
      List.insertionSort keyLe (tallyKeys t1)
        = List.insertionSort keyLe (tallyKeys t2) :=
    List.eq_of_perm_of_sorted hsortperm hsorted1 hsorted2
  refine ⟨?_, hsorted1, List.perm_insertionSort keyLe _, rfl⟩
  unfold save_mapping
  rw [hsorteq]
  congr 1
  refine List.map_congr_left fun k hk => ?_
  have hk2 : k ∈ tallyKeys t2 :=
    (List.perm_insertionSort keyLe _).mem_iff.mp hk
  have he := hagree k (List.mem_append_right _ hk2)
  unfold mappingRow
  rw [he]

/-- C9 witness -/
theorem save_mapping_deterministic_witness :
    save_mapping [(("b", "b"), 2), (("a", "x"), 1)]
      = save_mapping [(("a", "x"), 1), (("b", "b"), 2)] :=
  (save_mapping_deterministic
    [(("b", "b"), 2), (("a", "x"), 1)] [(("a", "x"), 1), (("b", "b"), 2)]
    (by decide) (by decide) (by decide)).1



/-- The name tag of a metrics-table row written by `main`. -/
inductive RowLabel where
  | overall
  | species (name : String)
  | otherInDB (n : Nat)
deriving DecidableEq, Repr

/-- One metrics-table row: its label and the four confusion counts that
`main` feeds into the derived ratios. -/
structure MetricsRow where
  label : RowLabel
  tp : Nat
  fp : Nat
  fn : Nat
  tn : Nat
deriving DecidableEq, Repr

/-- The row-construction part of the metrics loop in `main` (`assess.py`,
`for sp in ["", *sp_list, None]`): the OVERALL row first; per-species rows
from `extract_binary_tally`, except that a species with `tp == fp == fn`
(Python chained comparison: all three equal) is suppressed and accumulated
into the boring-species counters; finally the `OTHER {n} SPECIES IN DB`
row, written only when the boring-species count is non-zero. -/
def metrics_rows (tally : Tally) (sp_list : List String) : List MetricsRow :=
  let og := extract_global_tally tally sp_list
  let overallRow : MetricsRow :=
    MetricsRow.mk RowLabel.overall og.1 og.2.1 og.2.2.1 og.2.2.2
  let acc := sp_list.foldl
    (fun (acc : List MetricsRow × Nat × Nat) sp =>
      let bt := extract_binary_tally sp tally
      if bt.1 = bt.2.1 ∧ bt.2.1 = bt.2.2.1 then
        (acc.1, acc.2.1 + 1, acc.2.2 + bt.2.2.2)
      else
        (acc.1
            ++ [MetricsRow.mk (RowLabel.species sp) bt.1 bt.2.1 bt.2.2.1
              bt.2.2.2],
          acc.2.1, acc.2.2))
    ([], 0, 0)
  let rows := overallRow :: acc.1
  if acc.2.1 ≠ 0 then
    rows ++ [MetricsRow.mk (RowLabel.otherInDB acc.2.1) 0 0 0 acc.2.2]
  else rows

/-- Does the row list contain an `OTHER {n} SPECIES IN DB` row? -/
def hasOtherRow (rows : List MetricsRow) : Bool :=
  rows.any (fun r =>
    match r.label with
    | RowLabel.otherInDB _ => true
    | _ => false)

/-- C10 is violated by the code: on the tally
`{("A","A"):1, ("","A"):1, ("A",""):1}` with species list `["A"]`, the
single species A has binary counts TP=FP=FN=1 (all non-zero, so by the
claim no "OTHER N SPECIES IN DB" row should appear), yet the chained
equality test `tp == fp == fn` in `main` treats A as true-negative
padding, drops its row, and writes an `OTHER 1 SPECIES IN DB` row. -/
theorem metrics_other_row_chained_eq_bug :
    extract_binary_tally "A"
        [(("A", "A"), 1), (("", "A"), 1), (("A", ""), 1)] = (1, 1, 1, 0) ∧
    (∀ sp ∈ ["A"],
      ¬((extract_binary_tally sp
          [(("A", "A"), 1), (("", "A"), 1), (("A", ""), 1)]).1 = 0 ∧
        (extract_binary_tally sp
          [(("A", "A"), 1), (("", "A"), 1), (("A", ""), 1)]).2.1 = 0 ∧
        (extract_binary_tally sp
          [(("A", "A"), 1), (("", "A"), 1), (("A", ""), 1)]).2.2.1 = 0)) ∧
    hasOtherRow
        (metrics_rows [(("A", "A"), 1), (("", "A"), 1), (("A", ""), 1)] ["A"])
      = true := by
  decide

end Assess
